import Mathlib

/-
Verification of the GPT language model in GPT.py: a shallow embedding of the
model's forward pass and autoregressive generation over exact rationals.

Modelling conventions, stated once:
* Tensors of a known shape are total functions out of `Fin` types; the batch
  dimension is carried as an outer `Fin B` argument, and every PyTorch
  operation used by the source acts batch-row-wise.
* The numerical collaborator's transcendental scalar functions (the
  exponential inside `F.softmax` and `F.cross_entropy`, and the `** -0.5`
  scale) are fields of an `Ops` record, since spec section 1 scopes numeric
  execution to an external collaborator; everything else is exact `ℚ`
  arithmetic translated from the source.
* The float `-inf` written by `masked_fill` is modelled as `Option.none`;
  `softmax` of a row maps it through `expVal`, which sends `none` to `0`,
  exactly as `exp(-inf) = 0` behaves in the float softmax.
* Operations that raise in Python (out-of-range embedding lookups, `view`
  with a mismatched element count, `[:, -1, :]` on an empty time axis,
  `//` by zero, out-of-range cross-entropy targets) return `Option.none`.
* `nn.Dropout` keeps a Bernoulli mask stream (`Mask2`) and the train flag;
  in eval mode (`train = false`) it is the identity, in train mode it zeroes
  masked entries and rescales by `1/(1-p)`.
* `nn.LayerNorm(n_embed)` acts independently on each position's channel
  vector; each constructed LayerNorm module (its normalization together with
  its learned affine parameters, a collaborator op per spec section 6) is
  carried as the per-position function it denotes.
-/

namespace GPT

/-- Hyperparameters of GPT.py lines 6-16. `vocab_size` is derived from the
corpus and passed to the model constructor. -/
structure Config where
  vocab_size : ℕ
  n_embed : ℕ
  block_size : ℕ
  n_head : ℕ
  n_layer : ℕ
  dropout : ℚ

/-- The module-level constants of GPT.py lines 8-16 (dropout = 0.2). -/
def defaultHyper (vocab : ℕ) : Config :=
  { vocab_size := vocab, n_embed := 384, block_size := 64, n_head := 8
    n_layer := 8, dropout := 1/5 }

/-- Scalar functions supplied by the numerical collaborator: `E` is the
exponential used inside `F.softmax` and `F.cross_entropy`, `negLog x` is
`-log x` as used by cross-entropy, and `invSqrt n` is `n ** -0.5` from
GPT.py line 34. -/
structure Ops where
  E : ℚ → ℚ
  negLog : ℚ → ℚ
  invSqrt : ℕ → ℚ

/-- The analytic facts about the collaborator's `exp` and `-log` that the
loss bound uses: `exp` is positive, and `-log x ≥ 0` for `x ≤ 1`. -/
structure OpsValid (O : Ops) : Prop where
  E_pos : ∀ x, 0 < O.E x
  negLog_nonneg : ∀ x, x ≤ 1 → 0 ≤ O.negLog x

/-- A Bernoulli mask stream for one dropout site, indexed by raw coordinates. -/
abbrev Mask2 := ℕ → ℕ → Bool

/-- `nn.Dropout(p)`: in train mode zero the masked entries and rescale the
survivors by `1/(1-p)`; in eval mode the identity (GPT.py lines 27, 37). -/
def dropM (p : ℚ) (train : Bool) (m : Mask2) {a b : ℕ} (x : Fin a → Fin b → ℚ) :
    Fin a → Fin b → ℚ :=
  fun i j => bif train then (bif m i.val j.val then 0 else x i j / (1 - p)) else x i j

/-- `nn.Linear(inD, outD, bias=False)` applied to one channel vector. -/
def linNB {inD outD : ℕ} (w : Fin outD → Fin inD → ℚ) (v : Fin inD → ℚ) : Fin outD → ℚ :=
  fun o => ∑ i, w o i * v i

/-- Weight and bias of an `nn.Linear(inD, outD)` (bias present by default). -/
structure LinearP (inD outD : ℕ) where
  weight : Fin outD → Fin inD → ℚ
  bias : Fin outD → ℚ

/-- `nn.Linear` applied to one channel vector: `x Wᵀ + b`. -/
def LinearP.apply {inD outD : ℕ} (p : LinearP inD outD) (v : Fin inD → ℚ) : Fin outD → ℚ :=
  fun o => (∑ i, p.weight o i * v i) + p.bias o

/-- Matrix product `A @ B` on the last two axes. -/
def matmulF {m k n : ℕ} (A : Fin m → Fin k → ℚ) (B : Fin k → Fin n → ℚ) :
    Fin m → Fin n → ℚ :=
  fun i j => ∑ c, A i c * B c j

/-- `transpose(-2, -1)`. -/
def transposeF {m n : ℕ} (A : Fin m → Fin n → ℚ) : Fin n → Fin m → ℚ :=
  fun i j => A j i

/-- Entry `(i, j)` of `torch.tril(torch.ones(n, n))` (GPT.py line 25): `1`
inside the n×n lower triangle, `0` elsewhere. Indices are raw naturals so
that the `[:T, :T]` slice taken on line 35 is just this function restricted
to `i, j < T` (which is inside the matrix whenever `T ≤ n`). -/
def tril (n : ℕ) (i j : ℕ) : ℚ :=
  if j ≤ i ∧ i < n ∧ j < n then 1 else 0

/-- The value seen by `softmax` at one score entry: a real score goes through
the collaborator's exponential, while a `masked_fill`ed `-inf` contributes
`exp(-inf) = 0`. -/
def expVal (O : Ops) : Option ℚ → ℚ
  | none => 0
  | some x => O.E x

/-- `F.softmax(row, dim=-1)` on a row that may hold `-inf` entries. -/
def softmaxMasked (O : Ops) {n : ℕ} (row : Fin n → Option ℚ) : Fin n → ℚ :=
  fun j => expVal O (row j) / ∑ t, expVal O (row t)

/-- `F.softmax(row, dim=-1)` on an ordinary row (GPT.py line 139). -/
def softmaxP (O : Ops) {V : ℕ} (z : Fin V → ℚ) (j : Fin V) : ℚ :=
  O.E (z j) / ∑ v, O.E (z v)

/-- Parameters of one attention `Head` (GPT.py lines 19-27): the three
bias-free projections. The `tril` buffer is shared and appears in
`Head.masked`; the dropout site keeps no parameters. -/
structure Head (C hs : ℕ) where
  key : Fin hs → Fin C → ℚ
  query : Fin hs → Fin C → ℚ
  value : Fin hs → Fin C → ℚ

/-- GPT.py line 34: `wei = q @ k.transpose(-2,-1) * k.shape[-1]**-0.5`. -/
def Head.scores (O : Ops) {C hs T : ℕ} (self : Head C hs) (x : Fin T → Fin C → ℚ) :
    Fin T → Fin T → ℚ :=
  fun i j =>
    matmulF (fun t => linNB self.query (x t)) (transposeF (fun t => linNB self.key (x t))) i j
      * O.invSqrt hs

/-- GPT.py line 35: `wei = wei.masked_fill(self.tril[:T, :T] == 0, float('-inf'))`;
`none` stands for `-inf`. -/
def Head.masked (O : Ops) (cfg : Config) {C hs T : ℕ} (self : Head C hs)
    (x : Fin T → Fin C → ℚ) : Fin T → Fin T → Option ℚ :=
  fun i j => if tril cfg.block_size i.val j.val = 0 then none else some (self.scores O x i j)

/-- GPT.py line 36: `wei = F.softmax(wei, dim=-1)`. -/
def Head.probs (O : Ops) (cfg : Config) {C hs T : ℕ} (self : Head C hs)
    (x : Fin T → Fin C → ℚ) : Fin T → Fin T → ℚ :=
  fun i => softmaxMasked O (self.masked O cfg x i)

/-- `Head.forward` (GPT.py lines 29-41): dropout on the attention
probabilities, then `out = wei @ v`. -/
def Head.forward (O : Ops) (cfg : Config) {C hs T : ℕ} (self : Head C hs)
    (train : Bool) (m : Mask2) (x : Fin T → Fin C → ℚ) : Fin T → Fin hs → ℚ :=
  matmulF (dropM cfg.dropout train m (self.probs O cfg x)) (fun t => linNB self.value (x t))

/-- `torch.cat(outs, dim=-1)` of `nh` head outputs of width `hs`: channel `d`
of the concatenation is channel `d % hs` of head `d / hs`. -/
def concatHeads {nh hs T : ℕ} (outs : Fin nh → Fin T → Fin hs → ℚ) :
    Fin T → Fin (nh * hs) → ℚ :=
  fun t d =>
    have hhs : 0 < hs := by
      rcases Nat.eq_zero_or_pos hs with h | h
      · subst h; exact absurd d.isLt (by simp)
      · exact h
    outs ⟨d.val / hs, (Nat.div_lt_iff_lt_mul hhs).mpr d.isLt⟩ t ⟨d.val % hs, Nat.mod_lt _ hhs⟩

/-- Parameters of `MultiHeadAttention` (GPT.py lines 44-49). -/
structure MultiHeadAttention (C nh hs : ℕ) where
  heads : Fin nh → Head C hs
  proj : LinearP (nh * hs) C

/-- `MultiHeadAttention.forward` (GPT.py lines 51-54): run the heads,
concatenate, project back to `n_embed`, dropout. `mA h` is head `h`'s
attention-probability mask stream and `mP` the projection's. -/
def MultiHeadAttention.forward (O : Ops) (cfg : Config) {C nh hs T : ℕ}
    (self : MultiHeadAttention C nh hs) (train : Bool) (mA : ℕ → Mask2) (mP : Mask2)
    (x : Fin T → Fin C → ℚ) : Fin T → Fin C → ℚ :=
  dropM cfg.dropout train mP
    (fun t => LinearP.apply self.proj
      (concatHeads (fun h => (self.heads h).forward O cfg train (mA h.val) x) t))

/-- `max(v, 0)`, i.e. `nn.ReLU` on one channel vector. -/
def reluV {n : ℕ} (v : Fin n → ℚ) : Fin n → ℚ :=
  fun i => max (v i) 0

/-- Parameters of `FeedForward` (GPT.py lines 57-66): expansion to
`4*n_embed`, ReLU, contraction, dropout. -/
structure FeedForward (C : ℕ) where
  lin1 : LinearP C (4 * C)
  lin2 : LinearP (4 * C) C

/-- `FeedForward.forward` (GPT.py lines 61-69), applied position-wise. -/
def FeedForward.forward (cfg : Config) {C T : ℕ} (self : FeedForward C)
    (train : Bool) (mF : Mask2) (x : Fin T → Fin C → ℚ) : Fin T → Fin C → ℚ :=
  dropM cfg.dropout train mF
    (fun t => LinearP.apply self.lin2 (reluV (LinearP.apply self.lin1 (x t))))

/-- Parameters of one transformer `Block` (GPT.py lines 72-80). -/
structure Block (C nh hs : ℕ) where
  sa : MultiHeadAttention C nh hs
  ffwd : FeedForward C
  ln1 : (Fin C → ℚ) → Fin C → ℚ
  ln2 : (Fin C → ℚ) → Fin C → ℚ

/-- The first half of `Block.forward` (GPT.py lines 83-84):
`y = self.sa(x); x = self.ln1(x + y)`. -/
def Block.mid (O : Ops) (cfg : Config) {C nh hs T : ℕ} (self : Block C nh hs)
    (train : Bool) (mA : ℕ → Mask2) (mP : Mask2) (x : Fin T → Fin C → ℚ) :
    Fin T → Fin C → ℚ :=
  fun t => self.ln1 (fun c => x t c + self.sa.forward O cfg train mA mP x t c)

/-- `Block.forward` (GPT.py lines 82-88): post-norm residual structure,
`y = ffwd x; x = ln2 (x + y)` applied after `Block.mid`. -/
def Block.forward (O : Ops) (cfg : Config) {C nh hs T : ℕ} (self : Block C nh hs)
    (train : Bool) (mA : ℕ → Mask2) (mP mF : Mask2) (x : Fin T → Fin C → ℚ) :
    Fin T → Fin C → ℚ :=
  fun t => self.ln2 (fun c =>
    self.mid O cfg train mA mP x t c
      + self.ffwd.forward cfg train mF (self.mid O cfg train mA mP x) t c)

/-- Dropout mask streams for every site of the model: `attn l h` feeds head
`h` of block `l`, `proj l` and `ffw l` the block's other two sites. -/
structure Masks where
  attn : ℕ → ℕ → Mask2
  proj : ℕ → Mask2
  ffw : ℕ → Mask2

/-- Parameters of `GPTLanguageModel` (GPT.py lines 91-101). Each block's
head size is `n_embed // n_head` (GPT.py line 75). -/
structure GPTLanguageModel (cfg : Config) where
  token_embedding_table : Fin cfg.vocab_size → Fin cfg.n_embed → ℚ
  position_embedding_table : Fin cfg.block_size → Fin cfg.n_embed → ℚ
  blocks : Fin cfg.n_layer → Block cfg.n_embed cfg.n_head (cfg.n_embed / cfg.n_head)
  ln_f : (Fin cfg.n_embed → ℚ) → Fin cfg.n_embed → ℚ
  lm_head : LinearP cfg.n_embed cfg.vocab_size

/-- GPT.py lines 119-121 on one batch row: the `nn.Sequential` of blocks in
order, the final LayerNorm, and the `lm_head` projection to logits. -/
def GPTLanguageModel.tail (O : Ops) (cfg : Config) (self : GPTLanguageModel cfg)
    (train : Bool) (ms : Masks) {T : ℕ} (x : Fin T → Fin cfg.n_embed → ℚ) :
    Fin T → Fin cfg.vocab_size → ℚ :=
  let xb := (List.finRange cfg.n_layer).foldl
    (fun acc l => (self.blocks l).forward O cfg train (ms.attn l.val) (ms.proj l.val)
      (ms.ffw l.val) acc) x
  fun t => LinearP.apply self.lm_head (self.ln_f (xb t))

/-- One `nn.Embedding(n, C)` row lookup at a raw integer index; Python raises
`IndexError` when the index is out of range, modelled as `none`. -/
def embedLookup {n C : ℕ} (table : Fin n → Fin C → ℚ) (i : ℕ) : Option (Fin C → ℚ) :=
  if h : i < n then some (table ⟨i, h⟩) else none

/-- Collect a family of fallible lookups: `some` exactly when all succeed. -/
def gather {T : ℕ} {α : Type} (f : Fin T → Option α) : Option (Fin T → α) :=
  if h : ∀ t, (f t).isSome then some (fun t => (f t).get (h t)) else none

/-- Two-dimensional `gather`. -/
def gather2 {B T : ℕ} {α : Type} (f : Fin B → Fin T → Option α) :
    Option (Fin B → Fin T → α) :=
  if h : ∀ b t, (f b t).isSome then some (fun b t => (f b t).get (h b t)) else none

/-- GPT.py lines 113-121: token embedding of `index`, position embedding of
`torch.arange(T)`, their sum through `tail`. Either embedding lookup raises
(`none`) when a token is out of `[0, vocab_size)` or when `T > block_size`. -/
def GPTLanguageModel.forwardCore (O : Ops) (cfg : Config) (self : GPTLanguageModel cfg)
    (train : Bool) (ms : Masks) {B T : ℕ} (index : Fin B → Fin T → ℕ) :
    Option (Fin B → Fin T → Fin cfg.vocab_size → ℚ) :=
  Option.bind (gather2 (fun b t => embedLookup self.token_embedding_table (index b t)))
    fun tok =>
  Option.bind (gather (fun t : Fin T => embedLookup self.position_embedding_table t.val))
    fun pos =>
  some (fun b => self.tail O cfg train ms (fun t c => tok b t c + pos t c))

/-- Row-major reinterpretation of a `(B, T)` tensor as a vector of length
`B*T`, exactly what `view(B*T, ...)` does to a contiguous tensor. -/
def flattenBT {B T : ℕ} {α : Type} (x : Fin B → Fin T → α) : Fin (B * T) → α :=
  fun k =>
    have hT : 0 < T := by
      rcases Nat.eq_zero_or_pos T with h | h
      · subst h; exact absurd k.isLt (by simp)
      · exact h
    x ⟨k.val / T, (Nat.div_lt_iff_lt_mul hT).mpr k.isLt⟩ ⟨k.val % T, Nat.mod_lt _ hT⟩

/-- `targets.view(n)` (GPT.py line 129): succeeds iff the element count
matches, otherwise PyTorch raises a shape error. -/
def viewTargets {B2 T2 : ℕ} (tgt : Fin B2 → Fin T2 → ℕ) (n : ℕ) : Option (Fin n → ℕ) :=
  if h : B2 * T2 = n then some (fun k => flattenBT tgt (Fin.cast h.symm k)) else none

/-- `F.cross_entropy(logits, targets)` with mean reduction (GPT.py line 130):
`-log softmax(logits_k)[targets_k]` averaged over the rows; raises (`none`)
when a target index is out of `[0, V)`. -/
def crossEntropy (O : Ops) {n V : ℕ} (logits : Fin n → Fin V → ℚ) (t : Fin n → ℕ) :
    Option ℚ :=
  if h : ∀ k, t k < V then
    some ((∑ k, O.negLog (softmaxP O (logits k) ⟨t k, h k⟩)) / (n : ℚ))
  else none

/-- GPT.py lines 126-132: reshape logits to `(B*T, C)`, reshape `targets` to
`B*T`, compute the loss, and return the reshaped logits with it. The
`targets` tensor is allowed its own shape `(B2, T2)` as in the source. -/
def GPTLanguageModel.forwardLoss (O : Ops) (cfg : Config) (self : GPTLanguageModel cfg)
    (train : Bool) (ms : Masks) {B T B2 T2 : ℕ} (index : Fin B → Fin T → ℕ)
    (targets : Fin B2 → Fin T2 → ℕ) :
    Option ((Fin (B * T) → Fin cfg.vocab_size → ℚ) × ℚ) :=
  Option.bind (self.forwardCore O cfg train ms index) fun logits =>
  let lf := flattenBT logits
  Option.bind (viewTargets targets (B * T)) fun tf =>
  Option.bind (crossEntropy O lf tf) fun loss =>
  some (lf, loss)

/-- The value returned by `GPTLanguageModel.forward`: `noLoss B T logits`
models `return logits, None` with `(B, T, V)`-shaped logits, and
`withLoss n logits loss` models `return logits, loss` after the
`view(B*T, C)` reshape, so its logits are `(n, V)`-shaped. -/
inductive FRet (V : ℕ) where
  | noLoss (B T : ℕ) (logits : Fin B → Fin T → Fin V → ℚ)
  | withLoss (n : ℕ) (logits : Fin n → Fin V → ℚ) (loss : ℚ)

/-- The shape of the logits tensor carried by a `FRet`. -/
def FRet.logitsShape {V : ℕ} : FRet V → List ℕ
  | .noLoss B T _ => [B, T, V]
  | .withLoss n _ _ => [n, V]

/-- `GPTLanguageModel.forward` (GPT.py lines 113-132), with the optional
`targets` of the same `(B, T)` shape as `index`. -/
def GPTLanguageModel.forward (O : Ops) (cfg : Config) (self : GPTLanguageModel cfg)
    (train : Bool) (ms : Masks) {B T : ℕ} (index : Fin B → Fin T → ℕ)
    (targets : Option (Fin B → Fin T → ℕ)) : Option (FRet cfg.vocab_size) :=
  match targets with
  | none => (self.forwardCore O cfg train ms index).map (fun L => .noLoss B T L)
  | some tg => (self.forwardLoss O cfg train ms index tg).map
      (fun r => .withLoss (B * T) r.1 r.2)

/-- The growing `(B, len)` matrix of token indices held by `generate`. -/
structure GenState (B : ℕ) where
  len : ℕ
  seq : Fin B → Fin len → ℕ

/-- Read entry `(b, t)` of a generation state, `none` past the end. -/
def GenState.entry (s : GenState B) (b : Fin B) (t : ℕ) : Option ℕ :=
  if h : t < s.len then some (s.seq b ⟨t, h⟩) else none

/-- The cumulative distribution of `p` up to and including index `j`. -/
def cumul {V : ℕ} (p : Fin V → ℚ) (j : Fin V) : ℚ :=
  ∑ k ∈ Finset.univ.filter (fun k => k ≤ j), p k

/-- `torch.multinomial(p, num_samples=1)` for one batch row (GPT.py line
140), modelled by inverse-CDF sampling with the uniform draw `r` the fixed
random stream supplies: the first index whose cumulative mass exceeds `r`
(the last index if none does); sampling from an empty distribution raises. -/
def multinomialPick {V : ℕ} (p : Fin V → ℚ) (r : ℚ) : Option (Fin V) :=
  if hV : 0 < V then
    some (((List.finRange V).find? (fun j => decide (r < cumul p j))).getD
      ⟨V - 1, Nat.sub_lt hV Nat.one_pos⟩)
  else none

/-- `index[:, -block_size:]` (GPT.py line 136): the last
`min len block_size` columns of the running sequence. -/
def genCond (cfg : Config) {B : ℕ} (s : GenState B) :
    Fin B → Fin (min s.len cfg.block_size) → ℕ :=
  fun b t => s.seq b ⟨s.len - min s.len cfg.block_size + t.val, by
    have h1 := Nat.min_le_left s.len cfg.block_size
    have h2 := t.isLt
    omega⟩

/-- `torch.cat((index, index_next), dim=1)` (GPT.py line 141). -/
def genAppend {B : ℕ} (s : GenState B) (nxt : Fin B → ℕ) : GenState B :=
  ⟨s.len + 1, fun b t => if h : t.val < s.len then s.seq b ⟨t.val, h⟩ else nxt b⟩

/-- One iteration of the `generate` loop (GPT.py lines 136-141): crop the
context, run `forward` without targets, keep the logits of the final time
step (`[:, -1, :]` raises on an empty time axis), softmax, draw one token
per row, append. `gms step` supplies the step's dropout masks and
`rng step b` the uniform draw for row `b`. -/
def genStep (O : Ops) (cfg : Config) (M : GPTLanguageModel cfg) (train : Bool)
    (gms : ℕ → Masks) (rng : ℕ → ℕ → ℚ) {B : ℕ} (step : ℕ) (s : GenState B) :
    Option (GenState B) :=
  Option.bind (M.forwardCore O cfg train (gms step) (genCond cfg s)) fun logits =>
  Option.bind (if h : 0 < min s.len cfg.block_size then
      some (fun b => logits b ⟨min s.len cfg.block_size - 1, Nat.sub_lt h Nat.one_pos⟩)
    else none) fun last =>
  Option.bind (gather (fun b => multinomialPick (softmaxP O (last b)) (rng step b.val)))
    fun nxt =>
  some (genAppend s (fun b => (nxt b).val))

/-- `GPTLanguageModel.generate` (GPT.py lines 134-143): `maxNew` sampling
steps starting from the caller's prompt. -/
def GPTLanguageModel.generate (O : Ops) (cfg : Config) (M : GPTLanguageModel cfg)
    (train : Bool) (gms : ℕ → Masks) (rng : ℕ → ℕ → ℚ) {B : ℕ} (s0 : GenState B)
    (maxNew : ℕ) : Option (GenState B) :=
  (List.range maxNew).foldlM (fun s i => genStep O cfg M train gms rng i s) s0

/-- `head_size = n_embed // n_head` (GPT.py line 75): Python's floor
division, which raises `ZeroDivisionError` exactly when `n_head = 0`. -/
def headSizeOf (cfg : Config) : Option ℕ :=
  if cfg.n_head = 0 then none else some (cfg.n_embed / cfg.n_head)

/-- The widths fixed while constructing the model (GPT.py lines 45-48,
72-80, 91-99): the per-head width, the width of the concatenation the
output projection consumes, and the model width it restores. -/
structure InitDims where
  head_size : ℕ
  sa_cat_width : ℕ
  proj_out : ℕ
  deriving DecidableEq

/-- Construction of `GPTLanguageModel(vocab_size)` as far as it can fail:
`Block.__init__` computes `head_size = n_embed // n_head` and wires
`nn.Linear(head_size * num_heads, n_embed)`; no other constructor statement
raises for any hyperparameter values, and no divisibility check appears
anywhere in GPT.py lines 72-101. -/
def modelInitDims (cfg : Config) : Option InitDims :=
  (headSizeOf cfg).map (fun hs => ⟨hs, hs * cfg.n_head, cfg.n_embed⟩)

/-- Claim C7's reading of GPT.py lines 31-34: raw scores
`scores[i,j] = (q_i · k_j) / sqrt(head_size)`, with the same three
bias-free projections; the spec's division by `sqrt(head_size)` and the
code's multiplication by `head_size ** -0.5` are the same collaborator
scale `invSqrt`. -/
def specScores (O : Ops) {C hs T : ℕ} (p : Head C hs) (x : Fin T → Fin C → ℚ) :
    Fin T → Fin T → ℚ :=
  fun i j => (∑ c, linNB p.query (x i) c * linNB p.key (x j) c) * O.invSqrt hs

/-- Claim C7's causal mask: `scores[i,j] = -infinity` exactly for `j > i`. -/
def specMasked (O : Ops) {C hs T : ℕ} (p : Head C hs) (x : Fin T → Fin C → ℚ) :
    Fin T → Fin T → Option ℚ :=
  fun i j => if (i : ℕ) < (j : ℕ) then none else some (specScores O p x i j)

/-- Claim C7's head output: softmax-normalized rows weighting the value
vectors, `out_i = Σ_j probs[i,j] * v_j`. -/
def specHeadOut (O : Ops) {C hs T : ℕ} (p : Head C hs) (x : Fin T → Fin C → ℚ) :
    Fin T → Fin hs → ℚ :=
  fun i h => ∑ j, softmaxMasked O (specMasked O p x i) j * linNB p.value (x j) h

/-- Claim C6's reading of the block: `x' = LayerNorm1(x + MultiHeadAttention(x))`
then `x'' = LayerNorm2(x' + FeedForward(x'))`, in exactly that order. -/
def specBlockForward (O : Ops) (cfg : Config) {C nh hs T : ℕ} (bp : Block C nh hs)
    (train : Bool) (mA : ℕ → Mask2) (mP mF : Mask2) (x : Fin T → Fin C → ℚ) :
    Fin T → Fin C → ℚ :=
  let xp : Fin T → Fin C → ℚ :=
    fun t => bp.ln1 (fun c => x t c + bp.sa.forward O cfg train mA mP x t c)
  fun t => bp.ln2 (fun c => xp t c + bp.ffwd.forward cfg train mF xp t c)

/-- Causality of a sequence-to-sequence map: the output at position `i`
depends only on the inputs at positions `t ≤ i`. -/
def Causal {T : ℕ} {α β : Type} (f : (Fin T → α) → Fin T → β) : Prop :=
  ∀ x y, ∀ i : Fin T, (∀ t, t ≤ i → x t = y t) → f x i = f y i

/-- A tiny concrete configuration used to instantiate the theorems:
vocabulary 2, width 1, context 4, one head, zero blocks. -/
def cCfg : Config :=
  { vocab_size := 2, n_embed := 1, block_size := 4, n_head := 1, n_layer := 0
    dropout := 0 }

/-- Concrete collaborator scalars satisfying `OpsValid`. -/
def cOps : Ops :=
  { E := fun _ => 1, negLog := fun _ => 0, invSqrt := fun _ => 1 }

/-- A concrete model at `cCfg`: all-ones embeddings and head, identity
LayerNorm, no blocks. -/
def cModel : GPTLanguageModel cCfg :=
  { token_embedding_table := fun _ _ => 1
    position_embedding_table := fun _ _ => 0
    blocks := fun l => l.elim0
    ln_f := id
    lm_head := { weight := fun _ _ => 1, bias := fun _ => 0 } }

/-- All-keep dropout mask streams. -/
def cMasks : Masks :=
  { attn := fun _ _ _ _ => false, proj := fun _ _ _ => false, ffw := fun _ _ _ => false }

/-- A concrete `(2, 3)` input batch of valid tokens. -/
def cIdx23 : Fin 2 → Fin 3 → ℕ := fun _ _ => 0

/-- A concrete `(2, 3)` targets batch of valid tokens. -/
def cTgt23 : Fin 2 → Fin 3 → ℕ := fun _ _ => 1

/-- A concrete `(3, 2)` input batch, the transpose shape of `cTgt23`. -/
def cIdx32 : Fin 3 → Fin 2 → ℕ := fun _ _ => 0

/-- A concrete `(1, 2)` input batch. -/
def cIdx12 : Fin 1 → Fin 2 → ℕ := fun _ _ => 0

/-- A concrete `(1, 3)` targets batch: element count 3 differs from 1*2. -/
def cTgt13 : Fin 1 → Fin 3 → ℕ := fun _ _ => 0

/-- A `(1, 2)` input everywhere 0. -/
def cIdxA : Fin 1 → Fin 2 → ℕ := fun _ _ => 0

/-- A `(1, 2)` input differing from `cIdxA` only at position 1. -/
def cIdxB : Fin 1 → Fin 2 → ℕ := fun _ t => if t.val = 1 then 1 else 0

/-- A concrete attention head of width 1 over channels of width 1. -/
def cHead : Head 1 1 :=
  { key := fun _ _ => 1, query := fun _ _ => 1, value := fun _ _ => 1 }

/-- A concrete `(2, 1)` activation input for the head. -/
def cX : Fin 2 → Fin 1 → ℚ := fun _ _ => 1

/-- An empty one-row prompt. -/
def cPrompt0 : GenState 1 := ⟨0, fun _ t => t.elim0⟩

/-- A one-row prompt holding the single token 0. -/
def cPrompt1 : GenState 1 := ⟨1, fun _ _ => 0⟩

/-- A configuration whose `n_embed = 10` is not divisible by `n_head = 3`. -/
def cCfgBad : Config :=
  { vocab_size := 2, n_embed := 10, block_size := 4, n_head := 3, n_layer := 1
    dropout := 0 }

lemma option_get_eq {α : Type} {o : Option α} {a : α} (h : o = some a) (hs : o.isSome) :
    o.get hs = a := by
  subst h; rfl

lemma isSome_bind {α β : Type} (o : Option α) (f : α → Option β) :
    (Option.bind o f).isSome ↔ ∃ a, o = some a ∧ (f a).isSome := by
  cases o <;> simp

lemma bind_eq_some_iff {α β : Type} {o : Option α} {f : α → Option β} {b : β} :
    Option.bind o f = some b ↔ ∃ a, o = some a ∧ f a = some b := by
  cases o <;> simp

lemma gather_eq_some {T : ℕ} {α : Type} (f : Fin T → Option α) (g : Fin T → α)
    (h : ∀ t, f t = some (g t)) : gather f = some g := by
  have hs : ∀ t, (f t).isSome := fun t => by rw [h t]; rfl
  unfold gather
  rw [dif_pos hs]
  exact congrArg some (funext fun t => option_get_eq (h t) (hs t))

lemma gather2_eq_some {B T : ℕ} {α : Type} (f : Fin B → Fin T → Option α)
    (g : Fin B → Fin T → α) (h : ∀ b t, f b t = some (g b t)) : gather2 f = some g := by
  have hs : ∀ b t, (f b t).isSome := fun b t => by rw [h b t]; rfl
  unfold gather2
  rw [dif_pos hs]
  exact congrArg some (funext fun b => funext fun t => option_get_eq (h b t) (hs b t))

lemma gather_isSome_iff {T : ℕ} {α : Type} (f : Fin T → Option α) :
    (gather f).isSome ↔ ∀ t, (f t).isSome := by
  unfold gather; split <;> simp_all

lemma gather2_isSome_iff {B T : ℕ} {α : Type} (f : Fin B → Fin T → Option α) :
    (gather2 f).isSome ↔ ∀ b t, (f b t).isSome := by
  unfold gather2; split <;> simp_all

lemma embedLookup_isSome_iff {n C : ℕ} (table : Fin n → Fin C → ℚ) (i : ℕ) :
    (embedLookup table i).isSome ↔ i < n := by
  unfold embedLookup; split <;> simp_all

lemma forall_fin_lt_iff {T n : ℕ} : (∀ t : Fin T, t.val < n) ↔ T ≤ n := by
  constructor
  · intro h
    by_contra hc
    push_neg at hc
    exact absurd (h ⟨n, hc⟩) (lt_irrefl n)
  · intro h t
    exact lt_of_lt_of_le t.isLt h

lemma forwardCore_eq (O : Ops) (cfg : Config) (M : GPTLanguageModel cfg) (train : Bool)
    (ms : Masks) {B T : ℕ} (index : Fin B → Fin T → ℕ)
    (hv : ∀ b t, index b t < cfg.vocab_size) (hT : T ≤ cfg.block_size) :
    M.forwardCore O cfg train ms index = some (fun b => M.tail O cfg train ms
      (fun t c => M.token_embedding_table ⟨index b t, hv b t⟩ c
        + M.position_embedding_table ⟨t.val, lt_of_lt_of_le t.isLt hT⟩ c)) := by
  have h1 : gather2 (fun b t => embedLookup M.token_embedding_table (index b t))
      = some (fun b t => M.token_embedding_table ⟨index b t, hv b t⟩) :=
    gather2_eq_some _ _ (fun b t => by unfold embedLookup; exact dif_pos (hv b t))
  have h2 : gather (fun t : Fin T => embedLookup M.position_embedding_table t.val)
      = some (fun t => M.position_embedding_table ⟨t.val, lt_of_lt_of_le t.isLt hT⟩) :=
    gather_eq_some _ _
      (fun t => by unfold embedLookup; exact dif_pos (lt_of_lt_of_le t.isLt hT))
  unfold GPTLanguageModel.forwardCore
  rw [h1, h2]
  rfl

lemma forwardCore_isSome_iff (O : Ops) (cfg : Config) (M : GPTLanguageModel cfg)
    (train : Bool) (ms : Masks) {B T : ℕ} (index : Fin B → Fin T → ℕ) :
    (M.forwardCore O cfg train ms index).isSome
      ↔ (∀ b t, index b t < cfg.vocab_size) ∧ T ≤ cfg.block_size := by
  unfold GPTLanguageModel.forwardCore
  rw [isSome_bind]
  constructor
  · rintro ⟨tok, htok, hrest⟩
    rw [isSome_bind] at hrest
    rcases hrest with ⟨pos, hpos, _⟩
    refine ⟨fun b t => ?_, ?_⟩
    · have hall := (gather2_isSome_iff _).mp (by rw [htok]; rfl)
      exact (embedLookup_isSome_iff _ _).mp (hall b t)
    · have hall := (gather_isSome_iff _).mp (by rw [hpos]; rfl)
      exact forall_fin_lt_iff.mp (fun t => (embedLookup_isSome_iff _ _).mp (hall t))
  · rintro ⟨hv, hT⟩
    refine ⟨_, gather2_eq_some _ _
      (fun b t => by unfold embedLookup; exact dif_pos (hv b t)), ?_⟩
    rw [isSome_bind]
    exact ⟨_, gather_eq_some _ _
      (fun t => by unfold embedLookup; exact dif_pos (lt_of_lt_of_le t.isLt hT)), rfl⟩

lemma dropM_false (p : ℚ) (m : Mask2) {a b : ℕ} (x : Fin a → Fin b → ℚ) :
    dropM p false m x = x := rfl

lemma tril_eq_zero_iff {n i j : ℕ} (hi : i < n) (hj : j < n) :
    tril n i j = 0 ↔ i < j := by
  unfold tril
  by_cases hc : j ≤ i
  · rw [if_pos ⟨hc, hi, hj⟩]
    constructor
    · intro h; exact absurd h one_ne_zero
    · intro h; omega
  · rw [if_neg (fun hand => hc hand.1)]
    constructor
    · intro _; omega
    · intro _; rfl

/-- Claim C4: calling `forward` directly with a sequence of length
`T > block_size` is an error (the position-embedding lookup at positions
`block_size, ...` raises), never a silently truncated result: the call
returns `none` for every choice of targets. -/
theorem forward_overlong_errors (O : Ops) (cfg : Config) (M : GPTLanguageModel cfg)
    (train : Bool) (ms : Masks) {B T : ℕ} (index : Fin B → Fin T → ℕ)
    (targets : Option (Fin B → Fin T → ℕ)) (hT : cfg.block_size < T) :
    M.forward O cfg train ms index targets = none := by
  have hc : M.forwardCore O cfg train ms index = none := by
    rw [← Option.not_isSome_iff_eq_none]
    intro hs
    exact absurd ((forwardCore_isSome_iff O cfg M train ms index).mp hs).2 (by omega)
  unfold GPTLanguageModel.forward
  cases targets with
  | none => rw [hc]; rfl
  | some tg =>
    unfold GPTLanguageModel.forwardLoss
    rw [hc]
    rfl

/-- Witness for C4 at a concrete overlong input: `T = 5 > block_size = 4`. -/
theorem forward_overlong_errors_witness :
    cModel.forward cOps cCfg false cMasks (fun (_ : Fin 1) (_ : Fin 5) => 0) none = none :=
  forward_overlong_errors cOps cCfg cModel false cMasks _ none (by decide)

/-- Counterexample to claim C5: constructing the model with `n_embed = 10`
not divisible by `n_head = 3` raises no error at all; construction succeeds
with `head_size = 10 // 3 = 3`, concatenation width 9 and the output
projection restoring width 10. -/
theorem init_no_check_cex :
    modelInitDims cCfgBad = some ⟨3, 9, 10⟩ ∧ ¬ (cCfgBad.n_embed % cCfgBad.n_head = 0) := by
  constructor
  · rfl
  · decide

/-- Amended C5: construction never checks divisibility; for every
configuration with `n_head ≠ 0` it succeeds, silently flooring the head
size to `n_embed // n_head` (only `n_head = 0` raises, a division by
zero). -/
theorem init_succeeds (cfg : Config) (h : cfg.n_head ≠ 0) :
    modelInitDims cfg = some ⟨cfg.n_embed / cfg.n_head,
      (cfg.n_embed / cfg.n_head) * cfg.n_head, cfg.n_embed⟩ := by
  unfold modelInitDims headSizeOf
  rw [if_neg h]
  rfl

/-- Witness for the amended C5 at the concrete configuration `cCfg`. -/
theorem init_succeeds_witness :
    modelInitDims cCfg = some ⟨cCfg.n_embed / cCfg.n_head,
      (cCfg.n_embed / cCfg.n_head) * cCfg.n_head, cCfg.n_embed⟩ :=
  init_succeeds cCfg (by decide)

/-- Claim C6: the block is post-norm: for every input `x` it returns
`LayerNorm2(x' + FeedForward(x'))` where `x' = LayerNorm1(x + MultiHeadAttention(x))`,
each normalization applied to the sum of a sub-layer's input and output, in
exactly that order. -/
theorem block_postnorm (O : Ops) (cfg : Config) {C nh hs T : ℕ} (bp : Block C nh hs)
    (train : Bool) (mA : ℕ → Mask2) (mP mF : Mask2) (x : Fin T → Fin C → ℚ) :
    bp.forward O cfg train mA mP mF x = specBlockForward O cfg bp train mA mP mF x := rfl

/-- Claim C7: with dropout disabled and `T ≤ block_size`, the head computes
exactly the spec's formula: scaled dot-product scores from three bias-free
projections, `-infinity` exactly above the diagonal, row-softmax, and the
probability-weighted sum of the value vectors. -/
theorem head_matches_spec (O : Ops) (cfg : Config) {C hs T : ℕ} (p : Head C hs)
    (m : Mask2) (x : Fin T → Fin C → ℚ) (hT : T ≤ cfg.block_size) :
    p.forward O cfg false m x = specHeadOut O p x := by
  have hmask : p.masked O cfg x = specMasked O p x := by
    funext i j
    unfold Head.masked specMasked
    rw [if_congr (tril_eq_zero_iff (lt_of_lt_of_le i.isLt hT) (lt_of_lt_of_le j.isLt hT))
      rfl rfl]
    rfl
  unfold Head.forward
  rw [dropM_false]
  unfold Head.probs
  rw [hmask]
  funext i h
  unfold matmulF specHeadOut
  rfl

/-- Witness for C7 at a concrete head and input with `T = 2 ≤ block_size`. -/
theorem head_matches_spec_witness :
    cHead.forward cOps cCfg false (fun _ _ => false) cX = specHeadOut cOps cHead cX :=
  head_matches_spec cOps cCfg cHead (fun _ _ => false) cX (by decide)

/-- Claim C8: with dropout disabled (`train = false`), the outputs of
`forward` and `generate` do not depend on the dropout mask streams, so two
calls on identical inputs with the same sampling stream `rng` (the fixed
seed) return identical results. -/
theorem determinism (O : Ops) (cfg : Config) (M : GPTLanguageModel cfg) {B T : ℕ}
    (index : Fin B → Fin T → ℕ) (targets : Option (Fin B → Fin T → ℕ))
    (ms1 ms2 : Masks) {B2 : ℕ} (s0 : GenState B2) (k : ℕ) (g1 g2 : ℕ → Masks)
    (rng : ℕ → ℕ → ℚ) :
    M.forward O cfg false ms1 index targets = M.forward O cfg false ms2 index targets
      ∧ M.generate O cfg false g1 rng s0 k = M.generate O cfg false g2 rng s0 k :=
  ⟨rfl, rfl⟩

lemma some_bind {α β : Type} (a : α) (f : α → Option β) : Option.bind (some a) f = f a := rfl

lemma none_bind {α β : Type} (f : α → Option β) : Option.bind none f = none := rfl

lemma softmaxP_le_one {O : Ops} (hO : OpsValid O) {V : ℕ} (z : Fin V → ℚ) (j : Fin V) :
    softmaxP O z j ≤ 1 := by
  unfold softmaxP
  have hpos : 0 < ∑ v, O.E (z v) :=
    Finset.sum_pos (fun v _ => hO.E_pos _) ⟨j, Finset.mem_univ j⟩
  rw [div_le_one hpos]
  exact Finset.single_le_sum (fun v _ => le_of_lt (hO.E_pos _)) (Finset.mem_univ j)

theorem cOpsValid : OpsValid cOps :=
  ⟨fun _ => one_pos, fun _ _ => le_refl 0⟩

/-- Counterexample to claim C2 as stated: at the valid `(B, T) = (2, 3)`
input `cIdx23` with matching targets, `forward` does not return logits of
shape `(B, T, vocab_size) = (2, 3, 2)`; it returns the `view(B*T, C)`
reshape of shape `(6, 2)` created on GPT.py line 128. -/
theorem forward_targets_shape_cex :
    (cModel.forward cOps cCfg false cMasks cIdx23 (some cTgt23)).map FRet.logitsShape
        = some [6, 2]
      ∧ [6, 2] ≠ [2, 3, 2] := by
  constructor
  · decide
  · decide

/-- Amended C2: for every valid input of shape `(B, T)` with
`T ≤ block_size`, `forward` without targets returns `(logits, None)` with
logits of shape `(B, T, vocab_size)`; with an integer targets tensor of
shape `(B, T)` it returns `(logits, loss)` where the returned logits are
flattened to shape `(B*T, vocab_size)` and the loss is a non-negative
(finite, being a rational) scalar. -/
theorem forward_shapes_loss (O : Ops) (cfg : Config) (M : GPTLanguageModel cfg)
    (ms : Masks) {B T : ℕ} (index tgt : Fin B → Fin T → ℕ) (hO : OpsValid O)
    (hv : ∀ b t, index b t < cfg.vocab_size) (htg : ∀ b t, tgt b t < cfg.vocab_size)
    (hT : T ≤ cfg.block_size) :
    (∃ L, M.forward O cfg false ms index none = some (.noLoss B T L))
      ∧ (∃ Lf loss, M.forward O cfg false ms index (some tgt)
          = some (.withLoss (B * T) Lf loss) ∧ 0 ≤ loss) := by
  obtain ⟨L, hL⟩ : ∃ L, M.forwardCore O cfg false ms index = some L :=
    ⟨_, forwardCore_eq O cfg M false ms index hv hT⟩
  constructor
  · exact ⟨L, by unfold GPTLanguageModel.forward; rw [hL]; rfl⟩
  · have hview : viewTargets tgt (B * T)
        = some (fun k => flattenBT tgt (Fin.cast rfl k)) := by
      unfold viewTargets
      exact dif_pos rfl
    have hvfV : ∀ k : Fin (B * T), flattenBT tgt (Fin.cast rfl k) < cfg.vocab_size :=
      fun k => htg _ _
    have hCE : crossEntropy O (flattenBT L) (fun k => flattenBT tgt (Fin.cast rfl k))
        = some ((∑ k, O.negLog (softmaxP O (flattenBT L k)
            ⟨flattenBT tgt (Fin.cast rfl k), hvfV k⟩)) / ((B * T : ℕ) : ℚ)) := by
      unfold crossEntropy
      exact dif_pos hvfV
    refine ⟨flattenBT L,
      (∑ k, O.negLog (softmaxP O (flattenBT L k)
        ⟨flattenBT tgt (Fin.cast rfl k), hvfV k⟩)) / ((B * T : ℕ) : ℚ), ?_, ?_⟩
    · unfold GPTLanguageModel.forward GPTLanguageModel.forwardLoss
      simp only [hL, some_bind, hview, hCE]
      rfl
    · apply div_nonneg
      · apply Finset.sum_nonneg
        intro k _
        exact hO.negLog_nonneg _ (softmaxP_le_one hO _ _)
      · exact Nat.cast_nonneg _

/-- Witness for the amended C2 at `(B, T) = (2, 3)` with concrete targets. -/
theorem forward_shapes_loss_witness :
    (∃ L, cModel.forward cOps cCfg false cMasks cIdx23 none = some (.noLoss 2 3 L))
      ∧ (∃ Lf loss, cModel.forward cOps cCfg false cMasks cIdx23 (some cTgt23)
          = some (.withLoss (2 * 3) Lf loss) ∧ 0 ≤ loss) :=
  forward_shapes_loss cOps cCfg cModel cMasks cIdx23 cTgt23 cOpsValid (by decide)
    (by decide) (by decide)

/-- Counterexample to claim C9 as stated: with `index` of shape `(3, 2)` and
a mismatched `targets` of the transposed shape `(2, 3)`, the call is not
fatal: `targets.view(B*T)` succeeds because the element counts agree, the
tensor is silently reinterpreted, and a loss is returned. -/
theorem targets_transposed_cex :
    (cModel.forwardLoss cOps cCfg false cMasks cIdx32 cTgt23).isSome = true := by
  decide

/-- Amended C9: with valid tokens and `T ≤ block_size`, supplying a targets
tensor of shape `(B2, T2)` is an error exactly when its element count
`B2*T2` differs from `B*T`; a mismatched shape with the same element count
(such as the transpose) is silently flattened and a loss is returned. -/
theorem targets_numel_check (O : Ops) (cfg : Config) (M : GPTLanguageModel cfg)
    (ms : Masks) {B T B2 T2 : ℕ} (index : Fin B → Fin T → ℕ)
    (tgt : Fin B2 → Fin T2 → ℕ) (hv : ∀ b t, index b t < cfg.vocab_size)
    (htg : ∀ b t, tgt b t < cfg.vocab_size) (hT : T ≤ cfg.block_size) :
    M.forwardLoss O cfg false ms index tgt = none ↔ B2 * T2 ≠ B * T := by
  obtain ⟨L, hL⟩ : ∃ L, M.forwardCore O cfg false ms index = some L :=
    ⟨_, forwardCore_eq O cfg M false ms index hv hT⟩
  unfold GPTLanguageModel.forwardLoss
  rw [hL, some_bind]
  by_cases h : B2 * T2 = B * T
  · have hview : viewTargets tgt (B * T)
        = some (fun k => flattenBT tgt (Fin.cast h.symm k)) := by
      unfold viewTargets
      exact dif_pos h
    have hvfV : ∀ k : Fin (B * T), flattenBT tgt (Fin.cast h.symm k) < cfg.vocab_size :=
      fun k => htg _ _
    have hCE : crossEntropy O (flattenBT L) (fun k => flattenBT tgt (Fin.cast h.symm k))
        = some ((∑ k, O.negLog (softmaxP O (flattenBT L k)
            ⟨flattenBT tgt (Fin.cast h.symm k), hvfV k⟩)) / ((B * T : ℕ) : ℚ)) := by
      unfold crossEntropy
      exact dif_pos hvfV
    rw [hview, some_bind, hCE, some_bind]
    simp [h]
  · have hview : viewTargets tgt (B * T) = none := by
      unfold viewTargets
      exact dif_neg h
    rw [hview, none_bind]
    simp [h]

/-- Witness for the amended C9: a `(1, 3)` targets tensor against a `(1, 2)`
input has element count `3 ≠ 2`, so the call errors. -/
theorem targets_numel_check_witness :
    cModel.forwardLoss cOps cCfg false cMasks cIdx12 cTgt13 = none ↔ 1 * 3 ≠ 1 * 2 :=
  targets_numel_check cOps cCfg cModel cMasks cIdx12 cTgt13 (by decide) (by decide)
    (by decide)

lemma causal_comp {T : ℕ} {α β γ : Type} {f : (Fin T → α) → Fin T → β}
    {g : (Fin T → β) → Fin T → γ} (hf : Causal f) (hg : Causal g) :
    Causal (fun x => g (f x)) := by
  intro x y i hxy
  exact hg (f x) (f y) i (fun t ht => hf x y t (fun u hu => hxy u (le_trans hu ht)))

lemma dropM_entry_congr (p : ℚ) (tr : Bool) (m : Mask2) {a b : ℕ}
    {x y : Fin a → Fin b → ℚ} (i : Fin a) (j : Fin b) (h : x i j = y i j) :
    dropM p tr m x i j = dropM p tr m y i j := by
  unfold dropM
  rw [h]

lemma dropM_entry_zero (p : ℚ) (tr : Bool) (m : Mask2) {a b : ℕ}
    (x : Fin a → Fin b → ℚ) (i : Fin a) (j : Fin b) (h : x i j = 0) :
    dropM p tr m x i j = 0 := by
  unfold dropM
  rw [h]
  cases tr
  · simp
  · cases hm : m i.val j.val <;> simp

lemma tril_zero_of_lt {n i j : ℕ} (h : i < j) : tril n i j = 0 := by
  unfold tril
  rw [if_neg]
  intro hand
  omega

lemma head_probs_eq (O : Ops) (cfg : Config) {C hs T : ℕ} (p : Head C hs)
    {x y : Fin T → Fin C → ℚ} (hT : T ≤ cfg.block_size) (i : Fin T)
    (hagree : ∀ t, t ≤ i → x t = y t) :
    p.probs O cfg x i = p.probs O cfg y i := by
  have hrow : ∀ k, expVal O (p.masked O cfg x i k) = expVal O (p.masked O cfg y i k) := by
    intro k
    by_cases hk : (k : ℕ) ≤ (i : ℕ)
    · have hsc : p.scores O x i k = p.scores O y i k := by
        unfold Head.scores matmulF transposeF
        dsimp only
        rw [hagree i (le_refl i), hagree k hk]
      unfold Head.masked
      rw [hsc]
    · have h0 : tril cfg.block_size i.val k.val = 0 := tril_zero_of_lt (by omega)
      unfold Head.masked
      rw [if_pos h0, if_pos h0]
  unfold Head.probs softmaxMasked
  funext j
  rw [hrow j]
  congr 1
  exact Finset.sum_congr rfl (fun k _ => hrow k)

lemma head_causal (O : Ops) (cfg : Config) {C hs T : ℕ} (p : Head C hs) (train : Bool)
    (m : Mask2) (hT : T ≤ cfg.block_size) :
    Causal (fun x : Fin T → Fin C → ℚ => p.forward O cfg train m x) := by
  intro x y i hxy
  unfold Head.forward matmulF
  funext h
  refine Finset.sum_congr rfl (fun j _ => ?_)
  by_cases hj : j ≤ i
  · have hpe : p.probs O cfg x i j = p.probs O cfg y i j :=
      congrFun (head_probs_eq O cfg p hT i hxy) j
    have h1 : dropM cfg.dropout train m (p.probs O cfg x) i j
        = dropM cfg.dropout train m (p.probs O cfg y) i j :=
      dropM_entry_congr _ _ _ i j hpe
    have h2 : linNB p.value (x j) h = linNB p.value (y j) h := by
      rw [hxy j hj]
    dsimp only
    rw [h1, h2]
  · have hij : (i : ℕ) < (j : ℕ) := Fin.lt_def.mp (Fin.not_le.mp hj)
    have hzero : ∀ z : Fin T → Fin C → ℚ, p.probs O cfg z i j = 0 := by
      intro z
      have h0 : p.masked O cfg z i j = none := by
        unfold Head.masked
        rw [if_pos (tril_zero_of_lt hij)]
      unfold Head.probs softmaxMasked
      rw [h0]
      simp [expVal]
    dsimp only
    rw [dropM_entry_zero _ _ _ _ i j (hzero x), dropM_entry_zero _ _ _ _ i j (hzero y)]
    simp

lemma mha_causal (O : Ops) (cfg : Config) {C nh hs T : ℕ}
    (p : MultiHeadAttention C nh hs) (train : Bool) (mA : ℕ → Mask2) (mP : Mask2)
    (hT : T ≤ cfg.block_size) :
    Causal (fun x : Fin T → Fin C → ℚ => p.forward O cfg train mA mP x) := by
  intro x y i hxy
  unfold MultiHeadAttention.forward
  funext c
  apply dropM_entry_congr
  dsimp only
  congr 1
  funext d
  unfold concatHeads
  exact congrFun (head_causal O cfg (p.heads _) train (mA _) hT x y i hxy) _

lemma ff_causal (cfg : Config) {C T : ℕ} (p : FeedForward C) (train : Bool) (mF : Mask2) :
    Causal (fun x : Fin T → Fin C → ℚ => p.forward cfg train mF x) := by
  intro x y i hxy
  funext c
  unfold FeedForward.forward
  apply dropM_entry_congr
  dsimp only
  rw [hxy i (le_refl i)]

lemma block_causal (O : Ops) (cfg : Config) {C nh hs T : ℕ} (bp : Block C nh hs)
    (train : Bool) (mA : ℕ → Mask2) (mP mF : Mask2) (hT : T ≤ cfg.block_size) :
    Causal (fun x : Fin T → Fin C → ℚ => bp.forward O cfg train mA mP mF x) := by
  intro x y i hxy
  have hmid : ∀ t, t ≤ i → bp.mid O cfg train mA mP x t = bp.mid O cfg train mA mP y t := by
    intro t ht
    unfold Block.mid
    have hsa := mha_causal O cfg bp.sa train mA mP hT x y t
      (fun u hu => hxy u (le_trans hu ht))
    dsimp only at hsa
    rw [hxy t ht, hsa]
  have hff := ff_causal cfg bp.ffwd train mF (bp.mid O cfg train mA mP x)
    (bp.mid O cfg train mA mP y) i hmid
  dsimp only at hff
  unfold Block.forward
  dsimp only
  rw [hmid i (le_refl i), hff]

lemma foldl_causal {T : ℕ} {α ι : Type} (L : List ι)
    (F : ι → (Fin T → α) → Fin T → α) (hF : ∀ l ∈ L, Causal (F l)) :
    Causal (fun x => L.foldl (fun a l => F l a) x) := by
  induction L with
  | nil =>
    intro x y i h
    simpa using h i (le_refl i)
  | cons hd tl ih =>
    intro x y i h
    have h1 : Causal (F hd) := hF hd (List.mem_cons_self hd tl)
    have h2 : Causal (fun x => tl.foldl (fun a l => F l a) x) :=
      ih (fun l hl => hF l (List.mem_cons_of_mem hd hl))
    simp only [List.foldl_cons]
    exact causal_comp h1 h2 x y i h

lemma tail_causal (O : Ops) (cfg : Config) (M : GPTLanguageModel cfg) (train : Bool)
    (ms : Masks) {T : ℕ} (hT : T ≤ cfg.block_size) :
    Causal (fun x : Fin T → Fin cfg.n_embed → ℚ => M.tail O cfg train ms x) := by
  have hfold := foldl_causal (List.finRange cfg.n_layer)
    (fun l acc => (M.blocks l).forward O cfg train (ms.attn l.val) (ms.proj l.val)
      (ms.ffw l.val) acc)
    (fun l _ => block_causal O cfg (M.blocks l) train _ _ _ hT)
  have hpt : Causal (fun (xb : Fin T → Fin cfg.n_embed → ℚ) t =>
      LinearP.apply M.lm_head (M.ln_f (xb t))) := by
    intro x y i h
    dsimp only
    rw [h i (le_refl i)]
  intro x y i h
  unfold GPTLanguageModel.tail
  exact causal_comp hfold hpt x y i h

/-- Claim C1: causality of the forward pass. With dropout disabled, for a
valid input of shape `(B, T)` with `T ≤ block_size`, changing only the
input tokens at a position `j` leaves the output logits at every earlier
position `i < j` unchanged (here stated for the logits the call returns). -/
theorem causality_forward (O : Ops) (cfg : Config) (M : GPTLanguageModel cfg)
    (ms : Masks) {B T : ℕ} (index index2 : Fin B → Fin T → ℕ) (j : Fin T)
    (hagree : ∀ b t, t ≠ j → index b t = index2 b t)
    (hv : ∀ b t, index b t < cfg.vocab_size) (hv2 : ∀ b t, index2 b t < cfg.vocab_size)
    (hT : T ≤ cfg.block_size) (b : Fin B) (i : Fin T) (hij : i < j)
    (v : Fin cfg.vocab_size) {L L2 : Fin B → Fin T → Fin cfg.vocab_size → ℚ}
    (hL : M.forwardCore O cfg false ms index = some L)
    (hL2 : M.forwardCore O cfg false ms index2 = some L2) :
    L b i v = L2 b i v := by
  rw [forwardCore_eq O cfg M false ms index hv hT] at hL
  rw [forwardCore_eq O cfg M false ms index2 hv2 hT] at hL2
  have hLfun := (Option.some.inj hL).symm
  have hL2fun := (Option.some.inj hL2).symm
  rw [hLfun, hL2fun]
  dsimp only
  have hagree0 : ∀ t : Fin T, t ≤ i →
      (fun c => M.token_embedding_table ⟨index b t, hv b t⟩ c
        + M.position_embedding_table ⟨t.val, lt_of_lt_of_le t.isLt hT⟩ c)
      = (fun c => M.token_embedding_table ⟨index2 b t, hv2 b t⟩ c
        + M.position_embedding_table ⟨t.val, lt_of_lt_of_le t.isLt hT⟩ c) := by
    intro t ht
    have hne : t ≠ j := fun he =>
      absurd (lt_of_le_of_lt ht hij) (by rw [he]; exact lt_irrefl j)
    have hmk : (⟨index b t, hv b t⟩ : Fin cfg.vocab_size) = ⟨index2 b t, hv2 b t⟩ :=
      Fin.ext (hagree b t hne)
    rw [hmk]
  exact congrFun (tail_causal O cfg M false ms hT _ _ i hagree0) v

/-- Witness for C1: two concrete `(1, 2)` inputs differing only at position
1 give the same logit at position 0. -/
theorem causality_forward_witness :
    (cModel.forwardCore cOps cCfg false cMasks cIdxA).map (fun L => L 0 0 (0 : Fin 2))
      = (cModel.forwardCore cOps cCfg false cMasks cIdxB).map (fun L => L 0 0 (0 : Fin 2)) := by
  have hA : (cModel.forwardCore cOps cCfg false cMasks cIdxA).isSome = true := by decide
  have hB : (cModel.forwardCore cOps cCfg false cMasks cIdxB).isSome = true := by decide
  rcases Option.isSome_iff_exists.mp hA with ⟨L, hL⟩
  rcases Option.isSome_iff_exists.mp hB with ⟨L2, hL2⟩
  rw [hL, hL2]
  exact congrArg some (causality_forward cOps cCfg cModel cMasks cIdxA cIdxB 1
    (by decide) (by decide) (by decide) (by decide) 0 0 (by decide) (0 : Fin 2) hL hL2)

lemma multinomialPick_isSome {V : ℕ} (p : Fin V → ℚ) (r : ℚ) :
    (multinomialPick p r).isSome ↔ 0 < V := by
  unfold multinomialPick
  split <;> simp_all

lemma genStep_some (O : Ops) (cfg : Config) (M : GPTLanguageModel cfg) (train : Bool)
    (gms : ℕ → Masks) (rng : ℕ → ℕ → ℚ) {B : ℕ} (step : ℕ) (s : GenState B)
    (hbs : 0 < cfg.block_size) (h0 : 0 < s.len)
    (hV : ∀ b t, s.seq b t < cfg.vocab_size) :
    ∃ s', genStep O cfg M train gms rng step s = some s' ∧ s'.len = s.len + 1
      ∧ (∀ b (t : ℕ) (h : t < s.len) (h' : t < s'.len), s'.seq b ⟨t, h'⟩ = s.seq b ⟨t, h⟩)
      ∧ (∀ b t, s'.seq b t < cfg.vocab_size) := by
  have hTc : 0 < min s.len cfg.block_size := lt_min h0 hbs
  have hcond : ∀ b t, genCond cfg s b t < cfg.vocab_size := fun b t => hV _ _
  obtain ⟨L, hL⟩ : ∃ L, M.forwardCore O cfg train (gms step) (genCond cfg s) = some L :=
    ⟨_, forwardCore_eq O cfg M train (gms step) (genCond cfg s) hcond
      (Nat.min_le_right _ _)⟩
  have hgs : (gather (fun b => multinomialPick
      (softmaxP O (L b ⟨min s.len cfg.block_size - 1, Nat.sub_lt hTc Nat.one_pos⟩))
      (rng step b.val))).isSome := by
    rw [gather_isSome_iff]
    intro b
    exact (multinomialPick_isSome _ _).mpr
      (lt_of_le_of_lt (Nat.zero_le _) (hV b ⟨0, h0⟩))
  obtain ⟨nxt, hnxt⟩ := Option.isSome_iff_exists.mp hgs
  refine ⟨genAppend s (fun b => (nxt b).val), ?_, rfl, ?_, ?_⟩
  · unfold genStep
    rw [hL, some_bind, dif_pos hTc, some_bind]
    dsimp only
    rw [hnxt, some_bind]
  · intro b t h h'
    unfold genAppend
    dsimp only
    rw [dif_pos h]
  · intro b t
    unfold genAppend
    dsimp only
    by_cases ht : t.val < s.len
    · rw [dif_pos ht]
      exact hV _ _
    · rw [dif_neg ht]
      exact (nxt b).isLt

lemma generate_invariant (O : Ops) (cfg : Config) (M : GPTLanguageModel cfg)
    (train : Bool) (gms : ℕ → Masks) (rng : ℕ → ℕ → ℚ) {B : ℕ} (s0 : GenState B)
    (k : ℕ) (hbs : 0 < cfg.block_size) (hV : ∀ b t, s0.seq b t < cfg.vocab_size)
    (h0 : 0 < s0.len) :
    ∃ s, M.generate O cfg train gms rng s0 k = some s ∧ s.len = s0.len + k
      ∧ (∀ b (t : ℕ) (h : t < s0.len) (h' : t < s.len), s.seq b ⟨t, h'⟩ = s0.seq b ⟨t, h⟩)
      ∧ (∀ b t, s.seq b t < cfg.vocab_size) ∧ 0 < s.len := by
  induction k with
  | zero => exact ⟨s0, rfl, rfl, fun b t h h' => rfl, hV, h0⟩
  | succ k ih =>
    obtain ⟨s, hgen, hlen, hpres, hV2, h02⟩ := ih
    obtain ⟨s', hstep, hlen', hpres', hV3⟩ :=
      genStep_some O cfg M train gms rng k s hbs h02 hV2
    refine ⟨s', ?_, by omega, ?_, hV3, by omega⟩
    · unfold GPTLanguageModel.generate at hgen ⊢
      rw [List.range_succ, List.foldlM_append, hgen]
      simp [List.foldlM, hstep]
    · intro b t h h'
      have hts : t < s.len := by omega
      rw [hpres' b t hts h', hpres b t h hts]

/-- Counterexample to claim C3 as stated: on a valid empty prompt of shape
`(1, 0)` and `k = 1` the call does not return a `(1, 1)` tensor — it is an
error, because `logits[:, -1, :]` (GPT.py line 138) indexes into a time
axis of size 0. -/
theorem generate_empty_prompt_cex :
    (cModel.generate cOps cCfg false (fun _ => cMasks) (fun _ _ => 0)
      cPrompt0 1).isNone = true := by
  decide

/-- Amended C3: for every prompt of shape `(B, T0)` with valid token indices
and `T0 ≥ 1` (or `k = 0`; an empty prompt with `k ≥ 1` raises), and a
positive `block_size` as in the shipped configuration, `generate` returns a
`(B, T0 + k)` tensor whose first `T0` columns equal the prompt exactly,
appending exactly one sampled token per step. -/
theorem generate_shape (O : Ops) (cfg : Config) (M : GPTLanguageModel cfg)
    (train : Bool) (gms : ℕ → Masks) (rng : ℕ → ℕ → ℚ) {B : ℕ} (s0 : GenState B)
    (k : ℕ) (hbs : 0 < cfg.block_size) (hV : ∀ b t, s0.seq b t < cfg.vocab_size)
    (h0 : 0 < s0.len ∨ k = 0) :
    ∃ s, M.generate O cfg train gms rng s0 k = some s ∧ s.len = s0.len + k
      ∧ ∀ b (t : ℕ) (h : t < s0.len), s.entry b t = some (s0.seq b ⟨t, h⟩) := by
  rcases h0 with h0 | rfl
  · obtain ⟨s, hgen, hlen, hpres, _, _⟩ :=
      generate_invariant O cfg M train gms rng s0 k hbs hV h0
    refine ⟨s, hgen, hlen, ?_⟩
    intro b t h
    have h' : t < s.len := by omega
    unfold GenState.entry
    rw [dif_pos h']
    rw [hpres b t h h']
  · exact ⟨s0, rfl, by omega, fun b t h => by unfold GenState.entry; rw [dif_pos h]⟩

/-- Witness for the amended C3: one step from the concrete one-token
prompt. -/
theorem generate_shape_witness :
    ∃ s, cModel.generate cOps cCfg false (fun _ => cMasks) (fun _ _ => 0)
        cPrompt1 1 = some s ∧ s.len = cPrompt1.len + 1
      ∧ ∀ b (t : ℕ) (h : t < cPrompt1.len), s.entry b t = some (cPrompt1.seq b ⟨t, h⟩) :=
  generate_shape cOps cCfg cModel false (fun _ => cMasks) (fun _ _ => 0) cPrompt1 1
    (by decide) (by decide) (Or.inl (by decide))

lemma genStep_range_cond (O : Ops) (cfg : Config) (M : GPTLanguageModel cfg)
    (train : Bool) (gms : ℕ → Masks) (rng : ℕ → ℕ → ℚ) {B : ℕ} (step : ℕ)
    {s s' : GenState B} (h : genStep O cfg M train gms rng step s = some s')
    (hV : ∀ b t, s.seq b t < cfg.vocab_size) :
    ∀ b t, s'.seq b t < cfg.vocab_size := by
  unfold genStep at h
  rcases bind_eq_some_iff.mp h with ⟨L, hL, h2⟩
  rcases bind_eq_some_iff.mp h2 with ⟨last, hlast, h3⟩
  rcases bind_eq_some_iff.mp h3 with ⟨nxt, hnxt, h4⟩
  have hs' : s' = genAppend s (fun b => (nxt b).val) := (Option.some.inj h4).symm
  subst hs'
  intro b t
  unfold genAppend
  dsimp only
  by_cases ht : t.val < s.len
  · rw [dif_pos ht]
    exact hV _ _
  · rw [dif_neg ht]
    exact (nxt b).isLt

lemma generate_range_cond (O : Ops) (cfg : Config) (M : GPTLanguageModel cfg)
    (train : Bool) (gms : ℕ → Masks) (rng : ℕ → ℕ → ℚ) {B : ℕ} (s0 : GenState B)
    (k : ℕ) {s : GenState B} (h : M.generate O cfg train gms rng s0 k = some s)
    (hV : ∀ b t, s0.seq b t < cfg.vocab_size) :
    ∀ b t, s.seq b t < cfg.vocab_size := by
  induction k generalizing s with
  | zero =>
    have hs : s = s0 := (Option.some.inj h).symm
    subst hs
    exact hV
  | succ k ih =>
    unfold GPTLanguageModel.generate at h
    rw [List.range_succ, List.foldlM_append] at h
    rcases bind_eq_some_iff.mp h with ⟨mid, hmid, hstep⟩
    simp only [List.foldlM] at hstep
    have hVmid := ih hmid
    exact genStep_range_cond O cfg M train gms rng k (by simpa using hstep) hVmid

/-- Claim C10: every token `generate` appends is an integer in
`[0, vocab_size)` — each step samples one index from a categorical
distribution over exactly `vocab_size` logits — so a returned sequence
from a valid prompt holds only indices in `[0, vocab_size)`; and
`generate` with `max_new_tokens = 0` returns the prompt unchanged. -/
theorem generate_tokens_in_range (O : Ops) (cfg : Config) (M : GPTLanguageModel cfg)
    (train : Bool) (gms : ℕ → Masks) (rng : ℕ → ℕ → ℚ) {B : ℕ}
    (s0 s : GenState B) (k : ℕ) (hV : ∀ b t, s0.seq b t < cfg.vocab_size)
    (hgen : M.generate O cfg train gms rng s0 k = some s) :
    (∀ b t, s.seq b t < cfg.vocab_size)
      ∧ M.generate O cfg train gms rng s0 0 = some s0 :=
  ⟨generate_range_cond O cfg M train gms rng s0 k hgen hV, rfl⟩

/-- Witness for C10 at the concrete one-token prompt with `k = 0`. -/
theorem generate_tokens_in_range_witness :
    (∀ b t, cPrompt1.seq b t < cCfg.vocab_size)
      ∧ cModel.generate cOps cCfg false (fun _ => cMasks) (fun _ _ => 0)
          cPrompt1 0 = some cPrompt1 :=
  generate_tokens_in_range cOps cCfg cModel false (fun _ => cMasks) (fun _ _ => 0)
    cPrompt1 cPrompt1 0 (by decide) rfl

end GPT
